import Mathlib

/-!
# TaskFlow task lifecycle and recurrence engine: a shallow embedding

This file embeds the core of the TaskFlow task-tracking application
(the task collection, the lifecycle operations `addTask`, `updateTask`,
`deleteTask`, the `TaskItem` completion handlers, the filter/sort view
projection, and JSON import/export) as executable Lean definitions, and
proves properties of them.

Modelling conventions, fixed once here:
* Opaque string ids (`uuidv4()` values) are modelled as natural numbers
  drawn from a fresh-id counter `gen`; each call of the generator returns
  the counter and increments it.  This models the spec's "fresh unique id".
* ISO-8601 timestamp strings are modelled by their epoch value as a `Nat`
  (ISO-8601 at a fixed precision is order-isomorphic and injective into
  epoch values); `isPast d` becomes `d < now` for an explicit `now : Nat`.
* A TypeScript optional field `f?: T` is an `Option T`.  A
  `Partial<Task>` update distinguishes, per key, absent / present with
  value, and for optional fields also present-with-`undefined` (which a
  spread `{...orig, ...updates}` writes through); hence optional fields
  of an update are `Option (Option T)`.
* `Array.prototype.sort` with a consistent comparator `c` is modelled as
  the stable `List.mergeSort` with `le a b := c a b ≤ 0`.
-/

namespace TaskFlow

/-- A subtask, from `Subtask` in `lib/types`:
`{ id: string; title: string; completed: boolean }`. -/
structure Subtask where
  id : Nat
  title : String
  completed : Bool
deriving DecidableEq, Repr

/-- `type: 'daily' | 'scheduled'` on a task. -/
inductive TaskType where
  | daily
  | scheduled
deriving DecidableEq, Repr

/-- `recurringIntervalUnit?: 'minutes' | 'hours' | 'days'`. -/
inductive IntervalUnit where
  | minutes
  | hours
  | days
deriving DecidableEq, Repr

/-- A task, from `Task` in `lib/types` (the revision with recurrence and
image fields, which is the one the page component operates on). -/
structure Task where
  id : Nat
  title : String
  description : Option String
  type : TaskType
  dueDate : Option Nat
  imageUrl : Option String
  completed : Bool
  completedAt : Option Nat
  subtasks : List Subtask
  isRecurring : Option Bool
  recurringInterval : Option Nat
  recurringIntervalUnit : Option IntervalUnit
  repetitions : Option Nat
deriving DecidableEq, Repr

/-- A `Partial<Task>` update object.  For each key: `none` = key absent.
For the optional fields of `Task` a present key may carry `undefined`
(e.g. `completedAt: undefined` in the handlers), so those are
`Option (Option _)`. -/
structure TaskUpdates where
  id : Option Nat := none
  title : Option String := none
  description : Option (Option String) := none
  type : Option TaskType := none
  dueDate : Option (Option Nat) := none
  imageUrl : Option (Option String) := none
  completed : Option Bool := none
  completedAt : Option (Option Nat) := none
  subtasks : Option (List Subtask) := none
  isRecurring : Option (Option Bool) := none
  recurringInterval : Option (Option Nat) := none
  recurringIntervalUnit : Option (Option IntervalUnit) := none
  repetitions : Option (Option Nat) := none
deriving DecidableEq, Repr

/-- The shallow merge `{ ...originalTask, ...updates }` of `updateTask`:
every key present in `updates` overwrites the original's value (for the
optional fields, a present `undefined` overwrites with `undefined`). -/
def applyUpdates (t : Task) (u : TaskUpdates) : Task where
  id := u.id.getD t.id
  title := u.title.getD t.title
  description := u.description.getD t.description
  type := u.type.getD t.type
  dueDate := u.dueDate.getD t.dueDate
  imageUrl := u.imageUrl.getD t.imageUrl
  completed := u.completed.getD t.completed
  completedAt := u.completedAt.getD t.completedAt
  subtasks := u.subtasks.getD t.subtasks
  isRecurring := u.isRecurring.getD t.isRecurring
  recurringInterval := u.recurringInterval.getD t.recurringInterval
  recurringIntervalUnit := u.recurringIntervalUnit.getD t.recurringIntervalUnit
  repetitions := u.repetitions.getD t.repetitions

/-- `newTasks.findIndex((task) => task.id === id)` followed by the read
`newTasks[taskIndex]`: the first task in the list whose id matches. -/
def findTask (id : Nat) : List Task → Option Task
  | [] => none
  | t :: ts => if t.id == id then some t else findTask id ts

/-- `newTasks[taskIndex] = updatedTask`: replace the first task whose id
matches by the shallow merge with `u`, leaving all others in place. -/
def replaceFirst (id : Nat) (u : TaskUpdates) : List Task → List Task
  | [] => []
  | t :: ts => if t.id == id then applyUpdates t u :: ts else t :: replaceFirst id u ts

/-- The successor task pushed by `updateTask` when a spawn fires:
`{ ...originalTask, id: uuidv4(), completed: false, completedAt: undefined,
repetitions: newRepetitions, subtasks: originalTask.subtasks.map(sub => ({...sub, completed: false})) }`. -/
def spawnSuccessor (orig : Task) (gen : Nat) (newRepetitions : Nat) : Task :=
  { orig with
    id := gen
    completed := false
    completedAt := none
    repetitions := some newRepetitions
    subtasks := orig.subtasks.map (fun sub => { sub with completed := false }) }

/-- `updateTask` from the page component (`part_003` lines 318–350).
Looks up the first task with the given id (`findIndex`); absent id is a
no-op.  Otherwise writes the shallow merge back in place, and if the
update's `completed` key is a truthy `true`, the original (pre-update)
task has truthy `isRecurring`, and `(originalTask.repetitions ?? 0) > 0`,
computes `newRepetitions = (originalTask.repetitions ?? 1) - 1` and, when
that is still positive, pushes one successor at the end of the array
(`uuidv4()` modelled by consuming the fresh-id counter `gen`). -/
def updateTask (id : Nat) (u : TaskUpdates) (ts : List Task) (gen : Nat) :
    List Task × Nat :=
  match findTask id ts with
  | none => (ts, gen)
  | some originalTask =>
    let newTasks := replaceFirst id u ts
    if u.completed == some true && originalTask.isRecurring == some true
        && originalTask.repetitions.getD 0 > 0 then
      let newRepetitions := originalTask.repetitions.getD 1 - 1
      if newRepetitions > 0 then
        (newTasks ++ [spawnSuccessor originalTask gen newRepetitions], gen + 1)
      else (newTasks, gen)
    else (newTasks, gen)

/-- `deleteTask` from the page component:
`prevTasks.filter((task) => task.id !== id)`. -/
def deleteTask (id : Nat) (ts : List Task) : List Task :=
  ts.filter (fun t => !(t.id == id))

/-- `TaskItem.handleTaskComplete`: the `(id, updates)` pair handed to
`onUpdateTask` when the task's own checkbox is toggled.  Note the
`completedAt` key is always present, carrying `undefined` when
un-completing. -/
def handleTaskComplete (task : Task) (completed : Bool) (now : Nat) :
    Nat × TaskUpdates :=
  (task.id,
    { completed := some completed
      completedAt := some (if completed then some now else none) })

/-- `TaskItem.handleSubtaskComplete`: toggles one subtask, recomputes the
parent's `completed` as the conjunction over the updated subtasks, and
hands the corresponding `(id, updates)` pair to `onUpdateTask`. -/
def handleSubtaskComplete (task : Task) (subtaskId : Nat) (completed : Bool)
    (now : Nat) : Nat × TaskUpdates :=
  let updatedSubtasks := task.subtasks.map (fun sub =>
    if sub.id == subtaskId then { sub with completed := completed } else sub)
  let allSubtasksCompleted := updatedSubtasks.all (·.completed)
  (task.id,
    { subtasks := some updatedSubtasks
      completed := some allSubtasksCompleted
      completedAt := some (if allSubtasksCompleted then some now else none) })

/-! ## View projection: status filter and sort (`filteredTasks`) -/

/-- `StatusFilter` from `components/task-filters` (the canonical
four-value revision). -/
inductive StatusFilter where
  | all
  | active
  | overdue
  | completed
deriving DecidableEq, Repr

/-- The filter predicate of `filteredTasks`:
`completed` → `task.completed`; `active` → `!task.completed`;
`overdue` → `!task.completed && task.dueDate && isPast(new Date(task.dueDate))`;
otherwise (`all`) → `true`. -/
def statusFilterPred (f : StatusFilter) (now : Nat) (t : Task) : Bool :=
  match f with
  | .completed => t.completed
  | .active => !t.completed
  | .overdue => !t.completed && t.dueDate.isSome && (t.dueDate.getD 0 < now)
  | .all => true

/-- `new Date(t.dueDate || 0).getTime()`: the due timestamp, a missing
due date reading as epoch zero. -/
def dueKey (t : Task) : Nat :=
  t.dueDate.getD 0

/-- The sort comparator of `filteredTasks`:
`(a.completed ? 1 : -1) - (b.completed ? 1 : -1) || (dueKey b - dueKey a)`
(the JavaScript `x || y` on numbers picks `x` unless it is zero). -/
def taskCmp (a b : Task) : Int :=
  let p : Int := (if a.completed then 1 else -1) - (if b.completed then 1 else -1)
  if p ≠ 0 then p else (dueKey b : Int) - (dueKey a : Int)

/-- `taskCmp` as a boolean "sorts-no-later-than" relation, the form a
stable comparator sort consumes. -/
def taskLE (a b : Task) : Bool :=
  taskCmp a b ≤ 0

/-- `filteredTasks` from the page component (`part_003` lines 356–367):
filter by the status predicate, then stable-sort by the comparator. -/
def filteredTasks (f : StatusFilter) (now : Nat) (ts : List Task) : List Task :=
  (ts.filter (statusFilterPred f now)).mergeSort taskLE

/-! ## Create: `AddTaskDialog.onSubmit` feeding `addTask` -/

/-- A task draft as `addTask` receives it:
`Omit<Task, 'id' | 'completed' | 'completedAt'>`. -/
structure TaskDraft where
  title : String
  description : Option String
  type : TaskType
  dueDate : Option Nat
  imageUrl : Option String
  subtasks : List Subtask
  isRecurring : Option Bool
  recurringInterval : Option Nat
  recurringIntervalUnit : Option IntervalUnit
  repetitions : Option Nat
deriving DecidableEq, Repr

/-- `addTask` from the page component (`part_003` lines 309–316): spread
the draft, generate a fresh id, set `completed: false` (and leave
`completedAt` absent), and append: `[...prevTasks, newTask]`. -/
def addTask (draft : TaskDraft) (ts : List Task) (gen : Nat) : List Task × Nat :=
  (ts ++ [{ id := gen
            title := draft.title
            description := draft.description
            type := draft.type
            dueDate := draft.dueDate
            imageUrl := draft.imageUrl
            completed := false
            completedAt := none
            subtasks := draft.subtasks
            isRecurring := draft.isRecurring
            recurringInterval := draft.recurringInterval
            recurringIntervalUnit := draft.recurringIntervalUnit
            repetitions := draft.repetitions }], gen + 1)

/-- The validated form values reaching `AddTaskDialog.onSubmit`, after
its caller-side validation and the due-date/start-time combination (a
date computation the claims do not touch; the combined value is taken as
given).  `subtaskTitles` is the dialog's list of subtask title strings. -/
structure CreateInput where
  title : String
  description : Option String
  type : TaskType
  dueDate : Option Nat
  imageUrl : Option String
  subtaskTitles : List String
  isRecurring : Option Bool
  recurringInterval : Option Nat
  recurringIntervalUnit : Option IntervalUnit
  repetitions : Option Nat
deriving DecidableEq, Repr

/-- `subtasks.map((title) => ({ id: uuidv4(), title, completed: false }))`
in `onSubmit`, with the fresh-id counter threaded through the calls. -/
def genSubtasks (titles : List String) (gen : Nat) : List Subtask × Nat :=
  match titles with
  | [] => ([], gen)
  | t :: rest =>
    let (subs, g) := genSubtasks rest (gen + 1)
    ({ id := gen, title := t, completed := false } :: subs, g)

/-- The create operation: `onSubmit` builds the final subtask list with
fresh ids and calls `addTask` with the draft. -/
def createTask (d : CreateInput) (ts : List Task) (gen : Nat) : List Task × Nat :=
  let (finalSubtasks, g1) := genSubtasks d.subtaskTitles gen
  addTask { title := d.title
            description := d.description
            type := d.type
            dueDate := d.dueDate
            imageUrl := d.imageUrl
            subtasks := finalSubtasks
            isRecurring := d.isRecurring
            recurringInterval := d.recurringInterval
            recurringIntervalUnit := d.recurringIntervalUnit
            repetitions := d.repetitions } ts g1

/-- The task `createTask` constructs, written out explicitly. -/
def createdTask (d : CreateInput) (gen : Nat) : Task :=
  { id := (genSubtasks d.subtaskTitles gen).2
    title := d.title
    description := d.description
    type := d.type
    dueDate := d.dueDate
    imageUrl := d.imageUrl
    completed := false
    completedAt := none
    subtasks := (genSubtasks d.subtaskTitles gen).1
    isRecurring := d.isRecurring
    recurringInterval := d.recurringInterval
    recurringIntervalUnit := d.recurringIntervalUnit
    repetitions := d.repetitions }

/-- A sequence of create operations, folded over the collection and the
fresh-id counter. -/
def runCreates (ds : List CreateInput) (ts : List Task) (gen : Nat) :
    List Task × Nat :=
  match ds with
  | [] => (ts, gen)
  | d :: rest =>
    let (ts1, g1) := createTask d ts gen
    runCreates rest ts1 g1

/-- All task ids and subtask ids occurring in a collection, in order. -/
def allIds (ts : List Task) : List Nat :=
  (ts.map (fun t => t.id :: t.subtasks.map (·.id))).flatten

/-! ## Persistence: the JSON document model, import, export

`localStorage` holds `JSON.stringify(tasks)`; export writes the same
string, import runs `JSON.parse` and a shape check.  The JSON document
is modelled as a tree; the textual layer (`JSON.stringify`/`JSON.parse`
as an injective printer and its inverse parser) is the JSON library's
concern, and a parse failure is modelled as `none`. -/

/-- A JSON value.  Numbers are restricted to the naturals, which is all
the program's numeric fields (counts and epoch timestamps) use. -/
inductive JValue where
  | null
  | bool (b : Bool)
  | num (n : Nat)
  | str (s : String)
  | arr (elems : List JValue)
  | obj (fields : List (String × JValue))

/-- The JavaScript `'k' in x` test as the import shape check uses it:
key lookup on an object; `false` on an array (a JSON array has only
index keys); on a primitive the operator throws, which the surrounding
`try`/`catch` turns into the same import failure as a `false` here. -/
def hasField (v : JValue) (k : String) : Bool :=
  match v with
  | .obj fields => fields.any (fun p => p.1 == k)
  | _ => false

/-- `importTasks` from the page component (`part_003` lines 268–307),
from the point where the file's text is in hand: `JSON.parse` (a failure
is `parsed = none`), then the shape check
`Array.isArray(tasksToImport) && tasksToImport.every(task => 'id' in task && 'title' in task)`;
on success `setTasks(tasksToImport)` replaces the collection wholesale,
on any failure the collection is untouched and an error toast is shown.
The collection is represented by its JSON element list, which is exactly
what the program stores (parsed JSON objects used structurally). -/
def importTasks (parsed : Option JValue) (cur : List JValue) :
    List JValue × Option String :=
  match parsed with
  | none => (cur, some "Could not import tasks. Invalid JSON file.")
  | some v =>
    match v with
    | .arr elems =>
      if elems.all (fun e => hasField e "id" && hasField e "title") then
        (elems, none)
      else
        (cur, some "Could not import tasks. Invalid JSON file.")
    | _ => (cur, some "Could not import tasks. Invalid JSON file.")

/-- The import validity condition as the spec words it: the document
parses, to an array, in which every element has at least an `id` and a
`title` field. -/
def importValid (parsed : Option JValue) : Prop :=
  ∃ elems, parsed = some (.arr elems) ∧
    ∀ e ∈ elems, hasField e "id" = true ∧ hasField e "title" = true

/-! ### Serialization of a task collection (`JSON.stringify(tasks)`) -/

/-- `type` rendered as its JSON string. -/
def typeStr (ty : TaskType) : String :=
  match ty with
  | .daily => "daily"
  | .scheduled => "scheduled"

/-- `recurringIntervalUnit` rendered as its JSON string. -/
def unitStr (u : IntervalUnit) : String :=
  match u with
  | .minutes => "minutes"
  | .hours => "hours"
  | .days => "days"

/-- One optional field of a serialized object: `JSON.stringify` omits a
key whose value is `undefined`. -/
def optField (k : String) (v : Option JValue) : List (String × JValue) :=
  match v with
  | none => []
  | some j => [(k, j)]

/-- A serialized subtask. -/
def encodeSubtask (s : Subtask) : JValue :=
  .obj [("id", .num s.id), ("title", .str s.title), ("completed", .bool s.completed)]

/-- The key/value list of a serialized task: each field under its own
key, optional fields omitted when absent, timestamps as their (modelled)
ISO value. -/
def taskFields (t : Task) : List (String × JValue) :=
  ([("id", JValue.num t.id), ("title", JValue.str t.title)]
    ++ optField "description" (t.description.map .str)
    ++ [("type", JValue.str (typeStr t.type))]
    ++ optField "dueDate" (t.dueDate.map .num)
    ++ optField "imageUrl" (t.imageUrl.map .str)
    ++ [("completed", JValue.bool t.completed)]
    ++ optField "completedAt" (t.completedAt.map .num)
    ++ [("subtasks", JValue.arr (t.subtasks.map encodeSubtask))]
    ++ optField "isRecurring" (t.isRecurring.map .bool)
    ++ optField "recurringInterval" (t.recurringInterval.map .num)
    ++ optField "recurringIntervalUnit" (t.recurringIntervalUnit.map (fun u => .str (unitStr u)))
    ++ optField "repetitions" (t.repetitions.map .num))

/-- A serialized task. -/
def encodeTask (t : Task) : JValue :=
  .obj (taskFields t)

/-- `JSON.stringify(tasks)`: the serialized collection. -/
def encodeTasks (ts : List Task) : JValue :=
  .arr (ts.map encodeTask)

/-- Key lookup in a serialized object. -/
def getField (fields : List (String × JValue)) (k : String) : Option JValue :=
  (fields.find? (fun p => p.1 == k)).map (·.2)

/-- Modelled from the spec: deserialization in the program is
`JSON.parse` followed by structural use of the parsed objects as `Task`
values (no explicit decoder exists in the source); §6 requires that
deserializing a serialized collection reproduce it field-for-field.
Reading one field: a required field must be present with the right
shape, an optional field may be absent. -/
def decodeSubtask (v : JValue) : Option Subtask :=
  match v with
  | .obj fields =>
    match getField fields "id", getField fields "title", getField fields "completed" with
    | some (.num i), some (.str t), some (.bool c) =>
      some { id := i, title := t, completed := c }
    | _, _, _ => none
  | _ => none

/-- Reading a `type` string back. -/
def decodeType (s : String) : Option TaskType :=
  if s == "daily" then some .daily
  else if s == "scheduled" then some .scheduled
  else none

/-- Reading a `recurringIntervalUnit` string back. -/
def decodeUnit (s : String) : Option IntervalUnit :=
  if s == "minutes" then some .minutes
  else if s == "hours" then some .hours
  else if s == "days" then some .days
  else none

/-- Reading an optional field: absent is fine, a present field must have
the expected shape. -/
def decodeOpt {α : Type} (read : JValue → Option α) :
    Option JValue → Option (Option α)
  | none => some none
  | some v => (read v).map some

/-- A natural-number field. -/
def readNum : JValue → Option Nat
  | .num n => some n
  | _ => none

/-- A string field. -/
def readStr : JValue → Option String
  | .str s => some s
  | _ => none

/-- A boolean field. -/
def readBool : JValue → Option Bool
  | .bool b => some b
  | _ => none

/-- Modelled from the spec: deserializing a list of subtasks
elementwise; any ill-shaped element fails the whole list. -/
def decodeSubtasksList : List JValue → Option (List Subtask)
  | [] => some []
  | v :: rest => do
    let s ← decodeSubtask v
    let ss ← decodeSubtasksList rest
    some (s :: ss)

/-- Modelled from the spec: deserializing one task (see `decodeSubtask`). -/
def decodeTask (v : JValue) : Option Task :=
  match v with
  | .obj fields =>
    match getField fields "id", getField fields "title",
        getField fields "type", getField fields "completed",
        getField fields "subtasks" with
    | some (.num i), some (.str title), some (.str tys), some (.bool c),
        some (.arr subVs) => do
      let ty ← decodeType tys
      let subs ← decodeSubtasksList subVs
      let description ← decodeOpt readStr (getField fields "description")
      let dueDate ← decodeOpt readNum (getField fields "dueDate")
      let imageUrl ← decodeOpt readStr (getField fields "imageUrl")
      let completedAt ← decodeOpt readNum (getField fields "completedAt")
      let isRecurring ← decodeOpt readBool (getField fields "isRecurring")
      let recurringInterval ← decodeOpt readNum (getField fields "recurringInterval")
      let recurringIntervalUnit ←
        decodeOpt (fun v => match v with | .str s => decodeUnit s | _ => none)
          (getField fields "recurringIntervalUnit")
      let repetitions ← decodeOpt readNum (getField fields "repetitions")
      some { id := i, title := title, description := description, type := ty
             dueDate := dueDate, imageUrl := imageUrl, completed := c
             completedAt := completedAt, subtasks := subs
             isRecurring := isRecurring, recurringInterval := recurringInterval
             recurringIntervalUnit := recurringIntervalUnit
             repetitions := repetitions }
    | _, _, _, _, _ => none
  | _ => none

/-- Modelled from the spec: deserializing a list of tasks elementwise. -/
def decodeTaskList : List JValue → Option (List Task)
  | [] => some []
  | v :: rest => do
    let t ← decodeTask v
    let ts ← decodeTaskList rest
    some (t :: ts)

/-- Modelled from the spec: deserializing a whole collection. -/
def decodeTasks (v : JValue) : Option (List Task) :=
  match v with
  | .arr elems => decodeTaskList elems
  | _ => none

/-! ## Spec-side invariants (stated from the spec's words, to be checked
against the engine) -/

/-- `completed = true` ⇔ `completedAt` is set (spec §3, claim C3). -/
def caConsistent (t : Task) : Prop :=
  t.completed = true ↔ t.completedAt.isSome = true

/-- A task with at least one subtask is completed iff all of its
subtasks are (spec §3, claim C3). -/
def subtaskInv (t : Task) : Prop :=
  t.subtasks ≠ [] → (t.completed = true ↔ t.subtasks.all (·.completed) = true)

/-! ## Shared concrete sample values (for witnesses and counterexamples) -/

/-- A recurring task with two remaining repetitions and one incomplete
subtask. -/
def sampleRecurring : Task :=
  { id := 0, title := "water plants", description := none,
    type := TaskType.daily, dueDate := none, imageUrl := none,
    completed := false, completedAt := none,
    subtasks := [{ id := 10, title := "fill can", completed := false }],
    isRecurring := some true, recurringInterval := some 1,
    recurringIntervalUnit := some IntervalUnit.days, repetitions := some 2 }

/-- The same task already completed. -/
def sampleCompletedRecurring : Task :=
  { sampleRecurring with completed := true, completedAt := some 1 }

/-- The update payload `{ completed: true, completedAt: <now> }` the
task-completion handler sends. -/
def completeUpdate : TaskUpdates :=
  { completed := some true, completedAt := some (some 5) }

/-- A plain non-recurring task with no subtasks, parametrised by id,
completion and due date. -/
def plainTask (i : Nat) (c : Bool) (d : Option Nat) : Task :=
  { id := i, title := "plain", description := none,
    type := TaskType.scheduled, dueDate := d, imageUrl := none,
    completed := c, completedAt := if c then some 1 else none,
    subtasks := [], isRecurring := none, recurringInterval := none,
    recurringIntervalUnit := none, repetitions := none }

/-- A non-recurring task with one incomplete subtask. -/
def sampleWithSubtask : Task :=
  { sampleRecurring with
      isRecurring := none
      recurringInterval := none
      recurringIntervalUnit := none
      repetitions := none }

/-- A concrete validated create-form input with two subtask titles. -/
def sampleDraft : CreateInput :=
  { title := "read book", description := some "novel",
    type := TaskType.daily, dueDate := none, imageUrl := none,
    subtaskTitles := ["chapter one", "chapter two"],
    isRecurring := none, recurringInterval := none,
    recurringIntervalUnit := none, repetitions := none }

/-! # Theorems -/

/-! ## Basic facts about lookup and in-place replacement -/

theorem findTask_eq_none_iff (id : Nat) (ts : List Task) :
    findTask id ts = none ↔ ∀ t ∈ ts, t.id ≠ id := by
  induction ts with
  | nil => simp [findTask]
  | cons t ts ih =>
    by_cases h : t.id = id
    · simp [findTask, h]
    · simp only [findTask, beq_iff_eq, if_neg h, ih, List.mem_cons]
      constructor
      · intro hall t' ht'
        rcases ht' with rfl | ht'
        · exact h
        · exact hall t' ht'
      · intro hall t' ht'
        exact hall t' (Or.inr ht')

theorem replaceFirst_of_absent (id : Nat) (u : TaskUpdates) (ts : List Task)
    (h : ∀ t ∈ ts, t.id ≠ id) : replaceFirst id u ts = ts := by
  induction ts with
  | nil => rfl
  | cons t ts ih =>
    simp only [replaceFirst, beq_iff_eq, if_neg (h t (List.mem_cons_self t ts))]
    rw [ih (fun t' ht' => h t' (List.mem_cons_of_mem t ht'))]

theorem replaceFirst_getElem? (id : Nat) (u : TaskUpdates) :
    ∀ (ts : List Task) (i : Nat) (hi : i < ts.length),
      (ts.get ⟨i, hi⟩).id ≠ id →
      (replaceFirst id u ts)[i]? = some (ts.get ⟨i, hi⟩)
  | t :: ts, 0, _, hne => by
    simp only [List.get] at hne ⊢
    simp [replaceFirst, beq_iff_eq, if_neg hne]
  | t :: ts, i + 1, hi, hne => by
    have hi' : i < ts.length := Nat.lt_of_succ_lt_succ hi
    have := replaceFirst_getElem? id u ts i hi' hne
    by_cases h : t.id = id
    · simp only [replaceFirst, beq_iff_eq, if_pos h, List.getElem?_cons_succ]
      simp [List.getElem?_eq_getElem hi']
    · simp only [replaceFirst, beq_iff_eq, if_neg h, List.getElem?_cons_succ]
      exact this

theorem length_replaceFirst (id : Nat) (u : TaskUpdates) (ts : List Task) :
    (replaceFirst id u ts).length = ts.length := by
  induction ts with
  | nil => rfl
  | cons t ts ih =>
    by_cases h : t.id = id <;> simp [replaceFirst, h, ih]

theorem mem_replaceFirst {id : Nat} {u : TaskUpdates} :
    ∀ {ts : List Task} {t' : Task}, t' ∈ replaceFirst id u ts →
      t' ∈ ts ∨ ∃ orig ∈ ts, t' = applyUpdates orig u := by
  intro ts
  induction ts with
  | nil => intro t' h; simp [replaceFirst] at h
  | cons t ts ih =>
    intro t' h
    by_cases hid : t.id = id
    · simp only [replaceFirst, beq_iff_eq, if_pos hid, List.mem_cons] at h
      rcases h with rfl | h
      · exact Or.inr ⟨t, List.mem_cons_self t ts, rfl⟩
      · exact Or.inl (List.mem_cons_of_mem t h)
    · simp only [replaceFirst, beq_iff_eq, if_neg hid, List.mem_cons] at h
      rcases h with rfl | h
      · exact Or.inl (List.mem_cons_self t' ts)
      · rcases ih h with h' | ⟨orig, ho, rfl⟩
        · exact Or.inl (List.mem_cons_of_mem t h')
        · exact Or.inr ⟨orig, List.mem_cons_of_mem t ho, rfl⟩

/-- Claim C7: `update` and `delete` on an id absent from the collection
are benign no-ops returning the collection (and the id supply)
unchanged, for every possible change set. -/
theorem missing_id_noop (id : Nat) (u : TaskUpdates) (ts : List Task) (gen : Nat)
    (h : ∀ t ∈ ts, t.id ≠ id) :
    updateTask id u ts gen = (ts, gen) ∧ deleteTask id ts = ts := by
  constructor
  · have hf : findTask id ts = none := (findTask_eq_none_iff id ts).mpr h
    simp [updateTask, hf]
  · unfold deleteTask
    rw [List.filter_eq_self]
    intro t ht
    simp [h t ht]

/-- Witness for `missing_id_noop` at a concrete collection and id. -/
theorem missing_id_noop_witness :
    updateTask 99 completeUpdate [sampleRecurring] 100 = ([sampleRecurring], 100)
    ∧ deleteTask 99 [sampleRecurring] = [sampleRecurring] :=
  missing_id_noop 99 completeUpdate [sampleRecurring] 100 (by decide)

/-- Claim C10 (frame): `update` leaves every task whose id differs from
the target unchanged, at its original position; besides the in-place
replacement, the only possible addition is at most one task appended at
the very end. -/
theorem update_frame (id : Nat) (u : TaskUpdates) (ts : List Task) (gen : Nat) :
    ∃ tail : List Task, tail.length ≤ 1
      ∧ (updateTask id u ts gen).1 = replaceFirst id u ts ++ tail
      ∧ ∀ (i : Nat) (hi : i < ts.length), (ts.get ⟨i, hi⟩).id ≠ id →
          (replaceFirst id u ts)[i]? = some (ts.get ⟨i, hi⟩) := by
  have hpos := replaceFirst_getElem? id u ts
  unfold updateTask
  cases hf : findTask id ts with
  | none =>
    refine ⟨[], by simp, ?_, hpos⟩
    simp only [List.append_nil]
    rw [replaceFirst_of_absent id u ts ((findTask_eq_none_iff id ts).mp hf)]
  | some orig =>
    by_cases hc : (u.completed == some true && orig.isRecurring == some true
        && orig.repetitions.getD 0 > 0) = true
    · by_cases hr : orig.repetitions.getD 1 - 1 > 0
      · exact ⟨[spawnSuccessor orig gen (orig.repetitions.getD 1 - 1)],
          by simp, by simp [hc, hr], hpos⟩
      · exact ⟨[], by simp, by simp [hc, hr], hpos⟩
    · exact ⟨[], by simp, by simp [hc], hpos⟩

/-- Witness for `update_frame`: a two-task collection where the second
task's id differs from the updated one. -/
theorem update_frame_witness :
    ∃ tail : List Task, tail.length ≤ 1
      ∧ (updateTask 0 completeUpdate [sampleRecurring, plainTask 7 false none] 100).1
          = replaceFirst 0 completeUpdate [sampleRecurring, plainTask 7 false none] ++ tail
      ∧ (replaceFirst 0 completeUpdate [sampleRecurring, plainTask 7 false none])[1]?
          = some (plainTask 7 false none) := by
  obtain ⟨tail, h1, h2, h3⟩ :=
    update_frame 0 completeUpdate [sampleRecurring, plainTask 7 false none] 100
  exact ⟨tail, h1, h2, h3 1 (by decide) (by decide)⟩

theorem findTask_mem {id : Nat} : ∀ {ts : List Task} {t : Task},
    findTask id ts = some t → t ∈ ts := by
  intro ts
  induction ts with
  | nil => intro t h; simp [findTask] at h
  | cons t' ts ih =>
    intro t h
    by_cases hid : t'.id = id
    · simp only [findTask, beq_iff_eq, if_pos hid, Option.some.injEq] at h
      exact h ▸ List.mem_cons_self t' ts
    · simp only [findTask, beq_iff_eq, if_neg hid] at h
      exact List.mem_cons_of_mem t' (ih h)

theorem id_mem_allIds {t : Task} {ts : List Task} (h : t ∈ ts) :
    t.id ∈ allIds ts := by
  unfold allIds
  rw [List.mem_flatten]
  exact ⟨t.id :: t.subtasks.map (·.id),
    List.mem_map_of_mem (fun t => t.id :: t.subtasks.map (·.id)) h,
    List.mem_cons_self _ _⟩

theorem subtask_id_mem_allIds {t : Task} {s : Subtask} {ts : List Task}
    (ht : t ∈ ts) (hs : s ∈ t.subtasks) : s.id ∈ allIds ts := by
  unfold allIds
  rw [List.mem_flatten]
  exact ⟨t.id :: t.subtasks.map (·.id),
    List.mem_map_of_mem (fun t => t.id :: t.subtasks.map (·.id)) ht,
    List.mem_cons_of_mem _ (List.mem_map_of_mem (·.id) hs)⟩

/-! ## Claim C1: the recurrence spawn -/

/-- Counterexample to claim C1 as stated: completing the recurring task
`sampleRecurring` (with `repetitions = 2`) appends a successor with
`repetitions = 1`, but the original task's own `repetitions` field is
NOT decremented — it stays `2`, where the claim demands `1`. -/
theorem recurrence_decrement_cex :
    ((updateTask 0 completeUpdate [sampleRecurring] 100).1.map
        (fun t => t.repetitions) = [some 2, some 1])
    ∧ ¬ ((updateTask 0 completeUpdate [sampleRecurring] 100).1.map
        (fun t => t.repetitions) = [some 1, some 1]) := by
  decide

/-- Claim C1 amended: completing a recurring task `t` with
`repetitions = n > 1` appends exactly one successor at the end — fresh
id, `repetitions = n - 1`, `completed = false`, `completedAt` unset,
every subtask reset to incomplete, all other fields copied from `t` —
while `t`'s own `repetitions` field is left unchanged at `n` (not
decremented, provided the change set does not itself write
`repetitions`). -/
theorem recurrence_spawn_amended (ts : List Task) (t : Task) (u : TaskUpdates)
    (gen n : Nat)
    (hfind : findTask t.id ts = some t)
    (hrec : t.isRecurring = some true)
    (hrep : t.repetitions = some n)
    (hn : 1 < n)
    (hu : u.completed = some true)
    (hur : u.repetitions = none)
    (hui : u.id = none)
    (hg : ∀ i ∈ allIds ts, i < gen) :
    updateTask t.id u ts gen
        = (replaceFirst t.id u ts ++ [spawnSuccessor t gen (n - 1)], gen + 1)
      ∧ (applyUpdates t u).repetitions = some n
      ∧ (spawnSuccessor t gen (n - 1)).id = gen
      ∧ (∀ t' ∈ replaceFirst t.id u ts, t'.id ≠ gen)
      ∧ (spawnSuccessor t gen (n - 1)).repetitions = some (n - 1)
      ∧ (spawnSuccessor t gen (n - 1)).completed = false
      ∧ (spawnSuccessor t gen (n - 1)).completedAt = none
      ∧ (spawnSuccessor t gen (n - 1)).subtasks
          = t.subtasks.map (fun s => { s with completed := false })
      ∧ (∀ s ∈ (spawnSuccessor t gen (n - 1)).subtasks, s.completed = false)
      ∧ (spawnSuccessor t gen (n - 1)).title = t.title
      ∧ (spawnSuccessor t gen (n - 1)).description = t.description
      ∧ (spawnSuccessor t gen (n - 1)).type = t.type
      ∧ (spawnSuccessor t gen (n - 1)).dueDate = t.dueDate
      ∧ (spawnSuccessor t gen (n - 1)).imageUrl = t.imageUrl
      ∧ (spawnSuccessor t gen (n - 1)).isRecurring = t.isRecurring
      ∧ (spawnSuccessor t gen (n - 1)).recurringInterval = t.recurringInterval
      ∧ (spawnSuccessor t gen (n - 1)).recurringIntervalUnit
          = t.recurringIntervalUnit := by
  refine ⟨?_, ?_, rfl, ?_, rfl, rfl, rfl, rfl, ?_, rfl, rfl, rfl, rfl, rfl, rfl,
    rfl, rfl⟩
  · have hrep0 : t.repetitions.getD 0 = n := by rw [hrep]; rfl
    have hrep1 : t.repetitions.getD 1 = n := by rw [hrep]; rfl
    have hcond : (u.completed == some true && t.isRecurring == some true
        && t.repetitions.getD 0 > 0) = true := by
      rw [hu, hrec, hrep0]
      simp
      omega
    unfold updateTask
    simp only [hfind]
    rw [if_pos hcond, hrep1, if_pos (by omega)]
  · simp [applyUpdates, hur, hrep]
  · intro t' ht'
    rcases mem_replaceFirst ht' with h | ⟨orig, ho, rfl⟩
    · exact Nat.ne_of_lt (hg t'.id (id_mem_allIds h))
    · simp only [applyUpdates, hui, Option.getD_none]
      exact Nat.ne_of_lt (hg orig.id (id_mem_allIds ho))
  · intro s hs
    simp only [spawnSuccessor, List.mem_map] at hs
    obtain ⟨s', _, rfl⟩ := hs
    rfl

/-- Witness for `recurrence_spawn_amended`: the concrete recurring task
`sampleRecurring` with `repetitions = 2`, completed once. -/
theorem recurrence_spawn_amended_witness :
    updateTask 0 completeUpdate [sampleRecurring] 100
        = (replaceFirst 0 completeUpdate [sampleRecurring]
            ++ [spawnSuccessor sampleRecurring 100 (2 - 1)], 101)
      ∧ (applyUpdates sampleRecurring completeUpdate).repetitions = some 2 := by
  have h := recurrence_spawn_amended [sampleRecurring] sampleRecurring
    completeUpdate 100 2 (by decide) (by decide) (by decide) (by decide)
    (by decide) (by decide) (by decide) (by decide)
  exact ⟨h.1, h.2.1⟩

/-! ## Claim C2: spawning is not edge-triggered -/

/-- Counterexample to claim C2 as stated: `sampleCompletedRecurring` is
already completed (`completed = true` before the call), yet
`update(id, {completed: true})` spawns a successor anyway (collection
grows from 1 to 2 tasks), and a second identical call spawns another
(3 tasks) — two successors from two calls, where the claim allows at
most one in total and none from an already-completed task. -/
theorem respawn_cex :
    (updateTask 0 completeUpdate [sampleCompletedRecurring] 100).1.length = 2
    ∧ ((updateTask 0 completeUpdate
        (updateTask 0 completeUpdate [sampleCompletedRecurring] 100).1
        (updateTask 0 completeUpdate [sampleCompletedRecurring] 100).2).1.length
        = 3) := by
  decide

/-- Claim C2 amended: the spawn trigger consults only the update payload
and the pre-update task's recurrence fields, never the task's prior
`completed` state.  An update whose changes do not set `completed = true`
never spawns; an update that does set `completed = true` on a recurring
task with `repetitions = n > 1` always appends exactly one successor —
even when the task was already completed — so consecutive such calls
spawn one successor each. -/
theorem spawn_trigger_amended :
    (∀ (id : Nat) (u : TaskUpdates) (ts : List Task) (gen : Nat),
        u.completed ≠ some true →
        updateTask id u ts gen = (replaceFirst id u ts, gen))
    ∧ (∀ (ts : List Task) (t : Task) (u : TaskUpdates) (gen n : Nat),
        findTask t.id ts = some t →
        u.completed = some true →
        t.isRecurring = some true →
        t.repetitions = some n →
        1 < n →
        (updateTask t.id u ts gen).1.length = ts.length + 1
          ∧ (updateTask t.id u ts gen).1
              = replaceFirst t.id u ts ++ [spawnSuccessor t gen (n - 1)]) := by
  constructor
  · intro id u ts gen hu
    unfold updateTask
    cases hf : findTask id ts with
    | none =>
      rw [replaceFirst_of_absent id u ts ((findTask_eq_none_iff id ts).mp hf)]
    | some orig =>
      have : (u.completed == some true) = false := by
        simpa using hu
      simp [this]
  · intro ts t u gen n hfind hu hrec hrep hn
    have hrep0 : t.repetitions.getD 0 = n := by rw [hrep]; rfl
    have hrep1 : t.repetitions.getD 1 = n := by rw [hrep]; rfl
    have heq : (updateTask t.id u ts gen).1
        = replaceFirst t.id u ts ++ [spawnSuccessor t gen (n - 1)] := by
      have hcond : (u.completed == some true && t.isRecurring == some true
          && t.repetitions.getD 0 > 0) = true := by
        rw [hu, hrec, hrep0]
        simp
        omega
      unfold updateTask
      simp only [hfind]
      rw [if_pos hcond, hrep1, if_pos (by omega)]
    refine ⟨?_, heq⟩
    rw [heq, List.length_append, length_replaceFirst]
    rfl

/-- Witness for `spawn_trigger_amended`: an update not setting
`completed` is spawn-free, and completing the already-completed
`sampleCompletedRecurring` still spawns. -/
theorem spawn_trigger_amended_witness :
    updateTask 0 {} [sampleRecurring] 100
        = (replaceFirst 0 {} [sampleRecurring], 100)
    ∧ (updateTask 0 completeUpdate [sampleCompletedRecurring] 100).1.length
        = 2 := by
  refine ⟨spawn_trigger_amended.1 0 {} [sampleRecurring] 100 (by decide), ?_⟩
  have h := (spawn_trigger_amended.2 [sampleCompletedRecurring]
    sampleCompletedRecurring completeUpdate 100 2 (by decide) (by decide)
    (by decide) (by decide) (by decide)).1
  simpa using h

/-! ## Claim C3: handler-maintained invariants -/

theorem mem_updateTask {id : Nat} {u : TaskUpdates} {ts : List Task} {gen : Nat}
    {t' : Task} (h : t' ∈ (updateTask id u ts gen).1) :
    t' ∈ replaceFirst id u ts
    ∨ ∃ orig, findTask id ts = some orig
        ∧ t' = spawnSuccessor orig gen (orig.repetitions.getD 1 - 1) := by
  unfold updateTask at h
  cases hf : findTask id ts with
  | none =>
    rw [hf] at h
    simp only at h
    rw [replaceFirst_of_absent id u ts ((findTask_eq_none_iff id ts).mp hf)]
    exact Or.inl h
  | some orig =>
    simp only [hf] at h
    by_cases hc : (u.completed == some true && orig.isRecurring == some true
        && decide (orig.repetitions.getD 0 > 0)) = true
    · rw [if_pos hc] at h
      by_cases hr : orig.repetitions.getD 1 - 1 > 0
      · rw [if_pos hr] at h
        rcases List.mem_append.mp h with h' | h'
        · exact Or.inl h'
        · exact Or.inr ⟨orig, rfl, by simpa using h'⟩
      · rw [if_neg hr] at h
        exact Or.inl h
    · rw [if_neg hc] at h
      exact Or.inl h

theorem spawnSuccessor_caConsistent (orig : Task) (gen m : Nat) :
    caConsistent (spawnSuccessor orig gen m) := by
  simp [caConsistent, spawnSuccessor]

theorem spawnSuccessor_subtaskInv (orig : Task) (gen m : Nat) :
    subtaskInv (spawnSuccessor orig gen m) := by
  intro hne
  simp only [spawnSuccessor]
  cases hs : orig.subtasks with
  | nil => simp [spawnSuccessor, hs] at hne
  | cons s rest => simp

/-- Counterexample to claim C3 as stated: the task-completion handler on
`sampleWithSubtask` (one incomplete subtask) produces an update that
sets `completed = true` while leaving the subtask incomplete, so after
the update the collection holds a task with `completed = true` whose
subtasks are not all completed. -/
theorem subtask_invariant_cex :
    ((updateTask (handleTaskComplete sampleWithSubtask true 7).1
        (handleTaskComplete sampleWithSubtask true 7).2
        [sampleWithSubtask] 100).1.map
          (fun t => (t.completed, t.subtasks.all (·.completed)))
        = [(true, false)])
    ∧ ¬ (∀ t ∈ (updateTask (handleTaskComplete sampleWithSubtask true 7).1
        (handleTaskComplete sampleWithSubtask true 7).2
        [sampleWithSubtask] 100).1, subtaskInv t) := by
  constructor
  · decide
  · intro hall
    have := hall (applyUpdates sampleWithSubtask
      (handleTaskComplete sampleWithSubtask true 7).2) (by decide)
    have h2 := this (by decide)
    have h3 := h2.mp (by decide)
    exact absurd h3 (by decide)

/-- Claim C3 amended: after every update issued by either handler, every
task satisfies `completed = true` iff `completedAt` is set; after every
update issued by the subtask-completion handler, every task additionally
satisfies the subtask invariant (a task with ≥ 1 subtask is completed
iff all its subtasks are).  The task-completion handler does not
maintain the subtask invariant (see the counterexample): it can set
`completed = true` on a task whose subtasks are not all complete. -/
theorem handler_invariants_amended (ts : List Task) (task : Task) (b : Bool)
    (sid now gen : Nat)
    (hca : ∀ t ∈ ts, caConsistent t)
    (hsub : ∀ t ∈ ts, subtaskInv t) :
    (∀ t' ∈ (updateTask (handleTaskComplete task b now).1
        (handleTaskComplete task b now).2 ts gen).1, caConsistent t')
    ∧ (∀ t' ∈ (updateTask (handleSubtaskComplete task sid b now).1
        (handleSubtaskComplete task sid b now).2 ts gen).1,
        caConsistent t' ∧ subtaskInv t') := by
  constructor
  · intro t' ht'
    rcases mem_updateTask ht' with h | ⟨orig, _, rfl⟩
    · rcases mem_replaceFirst h with h' | ⟨orig, _, rfl⟩
      · exact hca t' h'
      · cases b <;> simp [caConsistent, applyUpdates, handleTaskComplete]
    · exact spawnSuccessor_caConsistent orig gen _
  · intro t' ht'
    rcases mem_updateTask ht' with h | ⟨orig, _, rfl⟩
    · rcases mem_replaceFirst h with h' | ⟨orig, _, rfl⟩
      · exact ⟨hca t' h', hsub t' h'⟩
      · constructor
        · by_cases hall : ((task.subtasks.map (fun sub =>
              if sub.id == sid then { sub with completed := b } else sub)).all
              (·.completed)) = true <;>
            simp [caConsistent, applyUpdates, handleSubtaskComplete, hall]
        · intro _
          simp [applyUpdates, handleSubtaskComplete]
    · exact ⟨spawnSuccessor_caConsistent orig gen _,
        spawnSuccessor_subtaskInv orig gen _⟩

/-- Witness for `handler_invariants_amended` on a concrete one-task
collection satisfying both invariants. -/
theorem handler_invariants_amended_witness :
    caConsistent (applyUpdates (plainTask 3 false none)
      (handleTaskComplete (plainTask 3 false none) true 7).2) := by
  have h := (handler_invariants_amended [plainTask 3 false none]
    (plainTask 3 false none) true 0 7 100 ?_ ?_).1
  · exact h (applyUpdates (plainTask 3 false none)
      (handleTaskComplete (plainTask 3 false none) true 7).2) (by decide)
  · intro t ht
    rcases List.mem_singleton.mp ht with rfl
    simp [caConsistent, plainTask]
  · intro t ht hne
    rcases List.mem_singleton.mp ht with rfl
    exact absurd rfl hne

/-! ## Claim C4: the status filter selects exactly the claimed tasks -/

/-- Claim C4: a task appears in the projection iff it is in the
collection and satisfies the filter's selection condition: every task
for `all`; `completed = false` for `active`; `completed = true` for
`completed`; and incomplete with a present due date strictly earlier
than `now` for `overdue`. -/
theorem filter_projection_correct (f : StatusFilter) (now : Nat)
    (ts : List Task) (t : Task) :
    t ∈ filteredTasks f now ts
      ↔ t ∈ ts ∧
        (match f with
         | .all => True
         | .active => t.completed = false
         | .completed => t.completed = true
         | .overdue => t.completed = false ∧ ∃ d, t.dueDate = some d ∧ d < now) := by
  unfold filteredTasks
  rw [List.mem_mergeSort, List.mem_filter]
  cases f with
  | all => simp [statusFilterPred]
  | active => simp [statusFilterPred]
  | completed => simp [statusFilterPred]
  | overdue =>
    cases hd : t.dueDate with
    | none => simp [statusFilterPred, hd]
    | some d => simp [statusFilterPred, hd]

/-! ## Claim C5: the sort projection -/

theorem taskLE_iff (a b : Task) :
    taskLE a b = true
      ↔ ((a.completed = false ∧ b.completed = true)
          ∨ (a.completed = b.completed ∧ dueKey b ≤ dueKey a)) := by
  unfold taskLE taskCmp
  cases ha : a.completed <;> cases hb : b.completed <;> simp [ha, hb]

theorem taskLE_total (a b : Task) : (taskLE a b || taskLE b a) = true := by
  rw [Bool.or_eq_true, taskLE_iff, taskLE_iff]
  cases ha : a.completed <;> cases hb : b.completed <;> simp [ha, hb] <;> omega

theorem taskLE_trans (a b c : Task) :
    taskLE a b → taskLE b c → taskLE a c := by
  intro hab hbc
  rw [taskLE_iff] at hab hbc ⊢
  rcases hab with ⟨ha, hb⟩ | ⟨hab, hdab⟩ <;>
    rcases hbc with ⟨hb', hc⟩ | ⟨hbc, hdbc⟩
  · rw [hb] at hb'
    exact absurd hb' (by simp)
  · exact Or.inl ⟨ha, hbc ▸ hb⟩
  · exact Or.inl ⟨hab.trans hb', hc⟩
  · exact Or.inr ⟨hab.trans hbc, Nat.le_trans hdbc hdab⟩

/-- Claim C5: the sort projection is a permutation of the filtered
collection, consecutive tasks obey the claimed order (incomplete before
completed; within a group, descending due date with a missing due date
reading as epoch zero, hence last), and tasks with equal sort keys keep
their relative input order (stability). -/
theorem sort_projection_correct (f : StatusFilter) (now : Nat) (ts : List Task) :
    (filteredTasks f now ts).Perm (ts.filter (statusFilterPred f now))
    ∧ (filteredTasks f now ts).Pairwise (fun a b =>
        (a.completed = false ∧ b.completed = true)
        ∨ (a.completed = b.completed ∧ dueKey b ≤ dueKey a))
    ∧ (∀ a b : Task, a.completed = b.completed → dueKey a = dueKey b →
        List.Sublist [a, b] (ts.filter (statusFilterPred f now)) →
        List.Sublist [a, b] (filteredTasks f now ts)) := by
  refine ⟨List.mergeSort_perm _ _, ?_, ?_⟩
  · have h := List.sorted_mergeSort taskLE_trans taskLE_total
      (ts.filter (statusFilterPred f now))
    exact h.imp (fun hab => (taskLE_iff _ _).mp hab)
  · intro a b hc hd hsub
    exact List.pair_sublist_mergeSort taskLE_trans taskLE_total
      ((taskLE_iff a b).mpr (Or.inr ⟨hc, Nat.le_of_eq hd.symm⟩)) hsub

/-- Witness for `sort_projection_correct`: two incomplete tasks with the
same due date keep their insertion order. -/
theorem sort_projection_correct_witness :
    List.Sublist [plainTask 1 false (some 5), plainTask 2 false (some 5)]
      (filteredTasks .all 0
        [plainTask 1 false (some 5), plainTask 2 false (some 5)]) := by
  have h := (sort_projection_correct .all 0
    [plainTask 1 false (some 5), plainTask 2 false (some 5)]).2.2
  refine h _ _ rfl rfl ?_
  have heq : List.filter (statusFilterPred .all 0)
      [plainTask 1 false (some 5), plainTask 2 false (some 5)]
      = [plainTask 1 false (some 5), plainTask 2 false (some 5)] := by decide
  rw [heq]

/-! ## Claim C6: create appends one fresh task; ids stay distinct -/

theorem genSubtasks_cons (t : String) (rest : List String) (gen : Nat) :
    genSubtasks (t :: rest) gen
      = ({ id := gen, title := t, completed := false }
            :: (genSubtasks rest (gen + 1)).1,
         (genSubtasks rest (gen + 1)).2) := rfl

theorem genSubtasks_snd (titles : List String) :
    ∀ gen : Nat, (genSubtasks titles gen).2 = gen + titles.length := by
  induction titles with
  | nil => intro gen; rfl
  | cons t rest ih =>
    intro gen
    rw [genSubtasks_cons]
    simp only [ih (gen + 1), List.length_cons]
    omega

theorem genSubtasks_ids (titles : List String) :
    ∀ gen : Nat,
      (genSubtasks titles gen).1.map (·.id) = List.range' gen titles.length := by
  induction titles with
  | nil => intro gen; rfl
  | cons t rest ih =>
    intro gen
    rw [genSubtasks_cons]
    simp only [List.map_cons, List.length_cons, List.range'_succ]
    rw [ih (gen + 1)]

theorem createTask_eq (d : CreateInput) (ts : List Task) (gen : Nat) :
    createTask d ts gen
      = (ts ++ [createdTask d gen], (genSubtasks d.subtaskTitles gen).2 + 1) := rfl

theorem createdTask_id (d : CreateInput) (gen : Nat) :
    (createdTask d gen).id = gen + d.subtaskTitles.length := by
  rw [show (createdTask d gen).id = (genSubtasks d.subtaskTitles gen).2 from rfl,
    genSubtasks_snd]

theorem createdTask_subtasks (d : CreateInput) (gen : Nat) :
    (createdTask d gen).subtasks = (genSubtasks d.subtaskTitles gen).1 := rfl

theorem allIds_append (ts₁ ts₂ : List Task) :
    allIds (ts₁ ++ ts₂) = allIds ts₁ ++ allIds ts₂ := by
  unfold allIds
  rw [List.map_append, List.flatten_append]

theorem allIds_singleton (t : Task) :
    allIds [t] = t.id :: t.subtasks.map (·.id) := by
  simp [allIds]

theorem createTask_invariant (d : CreateInput) (ts : List Task) (gen : Nat)
    (hb : ∀ i ∈ allIds ts, i < gen)
    (hp : (allIds ts).Pairwise (· ≠ ·)) :
    (∀ i ∈ allIds (createTask d ts gen).1, i < (createTask d ts gen).2)
    ∧ (allIds (createTask d ts gen).1).Pairwise (· ≠ ·) := by
  have hsnd := genSubtasks_snd d.subtaskTitles gen
  have hids : (createdTask d gen).subtasks.map (·.id)
      = List.range' gen d.subtaskTitles.length := by
    rw [createdTask_subtasks, genSubtasks_ids]
  rw [createTask_eq]
  simp only [allIds_append, allIds_singleton, createdTask_id]
  constructor
  · intro i hi
    rcases List.mem_append.mp hi with h | h
    · have := hb i h
      omega
    · rcases List.mem_cons.mp h with rfl | h'
      · omega
      · rw [hids, List.mem_range'_1] at h'
        omega
  · rw [List.pairwise_append]
    refine ⟨hp, ?_, ?_⟩
    · rw [List.pairwise_cons]
      constructor
      · intro j hj
        rw [hids, List.mem_range'_1] at hj
        omega
      · rw [hids]
        exact List.nodup_range' gen d.subtaskTitles.length
    · intro a ha b hb'
      have halt := hb a ha
      rcases List.mem_cons.mp hb' with rfl | hb''
      · omega
      · rw [hids, List.mem_range'_1] at hb''
        omega

theorem runCreates_invariant (ds : List CreateInput) :
    ∀ (ts : List Task) (gen : Nat),
      (∀ i ∈ allIds ts, i < gen) → (allIds ts).Pairwise (· ≠ ·) →
      (∀ i ∈ allIds (runCreates ds ts gen).1, i < (runCreates ds ts gen).2)
      ∧ (allIds (runCreates ds ts gen).1).Pairwise (· ≠ ·) := by
  induction ds with
  | nil => intro ts gen hb hp; exact ⟨hb, hp⟩
  | cons d rest ih =>
    intro ts gen hb hp
    have hstep := createTask_invariant d ts gen hb hp
    have hrun : runCreates (d :: rest) ts gen
        = runCreates rest (createTask d ts gen).1 (createTask d ts gen).2 := rfl
    rw [hrun]
    exact ih _ _ hstep.1 hstep.2

/-- Claim C6: a create operation appends exactly one task at the end of
the collection (existing tasks untouched) with `completed = false` and
`completedAt` unset and an id fresh for the collection; it is total (no
failure mode); and across any sequence of create operations starting
from an empty collection, all generated task and subtask ids are
pairwise distinct.  (Fresh `uuidv4()` ids are modelled by the monotone
id counter, matching the spec's "generates a fresh unique id".) -/
theorem create_correct :
    (∀ (d : CreateInput) (ts : List Task) (gen : Nat),
      ∃ t : Task, (createTask d ts gen).1 = ts ++ [t]
        ∧ t.completed = false ∧ t.completedAt = none
        ∧ ((∀ i ∈ allIds ts, i < gen) →
            ¬ t.id ∈ allIds ts ∧ ∀ s ∈ t.subtasks, ¬ s.id ∈ allIds ts))
    ∧ (∀ (ds : List CreateInput) (gen : Nat),
        (allIds (runCreates ds [] gen).1).Pairwise (· ≠ ·)) := by
  constructor
  · intro d ts gen
    refine ⟨_, congrArg Prod.fst (createTask_eq d ts gen), rfl, rfl, ?_⟩
    intro hb
    constructor
    · intro hmem
      have := hb _ hmem
      rw [createdTask_id] at this
      omega
    · intro s hs hmem
      have hidlt := hb _ hmem
      have hin : s.id ∈ List.range' gen d.subtaskTitles.length := by
        rw [← genSubtasks_ids]
        exact List.mem_map_of_mem (·.id) hs
      rw [List.mem_range'_1] at hin
      omega
  · intro ds gen
    exact (runCreates_invariant ds [] gen (by simp [allIds]) (by simp [allIds])).2

/-- Witness for `create_correct`: one concrete create on the empty
collection, plus a one-element create sequence. -/
theorem create_correct_witness :
    (allIds (runCreates [sampleDraft] [] 0).1).Pairwise (· ≠ ·)
    ∧ ((createTask sampleDraft [] 50).1.map
        (fun t => (t.completed, t.completedAt)) = [(false, none)]) := by
  refine ⟨create_correct.2 [sampleDraft] 0, ?_⟩
  obtain ⟨t, heq, hc, hca, hfresh⟩ := create_correct.1 sampleDraft [] 50
  have hf := hfresh (by simp [allIds])
  rw [heq]
  simp [hc, hca]

/-! ## Claim C8: import succeeds exactly on well-shaped documents and is
all-or-nothing -/

/-- Claim C8: import succeeds (no error surfaced) iff the document
parses to an array in which every element has at least an `id` and a
`title` field; on success the imported array fully replaces the
collection, and on any failure an error is reported and the collection
is left entirely unchanged. -/
theorem import_correct (parsed : Option JValue) (cur : List JValue) :
    ((importTasks parsed cur).2 = none ↔ importValid parsed)
    ∧ (∀ elems, parsed = some (JValue.arr elems) →
        (∀ e ∈ elems, hasField e "id" = true ∧ hasField e "title" = true) →
        importTasks parsed cur = (elems, none))
    ∧ ((importTasks parsed cur).2 ≠ none → (importTasks parsed cur).1 = cur) := by
  cases parsed with
  | none =>
    refine ⟨?_, ?_, fun _ => rfl⟩
    · simp [importTasks, importValid]
    · intro elems h
      exact absurd h (by simp)
  | some v =>
    cases v with
    | arr elems =>
      by_cases hall : (elems.all
          (fun e => hasField e "id" && hasField e "title")) = true
      · have hval : importValid (some (JValue.arr elems)) := by
          refine ⟨elems, rfl, ?_⟩
          intro e he
          have := (List.all_eq_true.mp hall) e he
          exact ⟨(Bool.and_eq_true _ _).mp this |>.1,
            (Bool.and_eq_true _ _).mp this |>.2⟩
        refine ⟨?_, ?_, ?_⟩
        · simp [importTasks, hall, hval]
        · intro elems' heq _
          cases heq
          simp [importTasks, hall]
        · intro herr
          exact absurd (by simp [importTasks, hall]) herr
      · refine ⟨?_, ?_, ?_⟩
        · simp only [importTasks, hall, if_neg]
          constructor
          · intro h
            simp at h
          · intro ⟨elems', heq, hprops⟩
            cases heq
            refine absurd ?_ hall
            rw [List.all_eq_true]
            intro e he
            have := hprops e he
            rw [Bool.and_eq_true]
            exact this
        · intro elems' heq hprops
          cases heq
          refine absurd ?_ hall
          rw [List.all_eq_true]
          intro e he
          rw [Bool.and_eq_true]
          exact hprops e he
        · intro _
          simp [importTasks, hall]
    | null => exact ⟨by simp [importTasks, importValid], by simp, fun _ => rfl⟩
    | bool b => exact ⟨by simp [importTasks, importValid], by simp, fun _ => rfl⟩
    | num n => exact ⟨by simp [importTasks, importValid], by simp, fun _ => rfl⟩
    | str s => exact ⟨by simp [importTasks, importValid], by simp, fun _ => rfl⟩
    | obj fields => exact ⟨by simp [importTasks, importValid], by simp, fun _ => rfl⟩

/-- Witness for `import_correct`: a well-shaped one-element document
replaces an arbitrary current collection. -/
theorem import_correct_witness :
    importTasks
        (some (JValue.arr [JValue.obj [("id", JValue.num 1), ("title", JValue.str "x")]]))
        [JValue.null]
      = ([JValue.obj [("id", JValue.num 1), ("title", JValue.str "x")]], none) :=
  (import_correct _ [JValue.null]).2.1 _ rfl (by decide)

/-! ## Claim C9: serialize/deserialize round trip -/

theorem getField_cons (k' : String) (v : JValue) (fs : List (String × JValue))
    (k : String) :
    getField ((k', v) :: fs) k
      = if (k' == k) = true then some v else getField fs k := by
  by_cases h : (k' == k) = true <;> simp [getField, List.find?_cons, h]

theorem getField_append (fs₁ fs₂ : List (String × JValue)) (k : String) :
    getField (fs₁ ++ fs₂) k = (getField fs₁ k).or (getField fs₂ k) := by
  induction fs₁ with
  | nil => simp [getField]
  | cons p fs ih =>
    rcases p with ⟨k', v⟩
    rw [List.cons_append, getField_cons, getField_cons]
    by_cases h : (k' == k) = true
    · simp [h]
    · simp [h, ih]

theorem getField_optField_self (k : String) (v : Option JValue) :
    getField (optField k v) k = v := by
  cases v <;> simp [optField, getField, List.find?_cons]

theorem getField_optField_ne (k' k : String) (v : Option JValue)
    (h : (k' == k) = false) :
    getField (optField k' v) k = none := by
  cases v <;> simp [optField, getField, List.find?_cons, h]

theorem decodeOpt_faithful {α : Type} (read : JValue → Option α) (f : α → JValue)
    (h : ∀ a, read (f a) = some a) (o : Option α) :
    decodeOpt read (o.map f) = some o := by
  cases o with
  | none => rfl
  | some a => simp [decodeOpt, h]

theorem decodeSubtask_encodeSubtask (s : Subtask) :
    decodeSubtask (encodeSubtask s) = some s := rfl

theorem decodeSubtasksList_encode (subs : List Subtask) :
    decodeSubtasksList (subs.map encodeSubtask) = some subs := by
  induction subs with
  | nil => rfl
  | cons s rest ih => simp [decodeSubtasksList, decodeSubtask_encodeSubtask, ih]

theorem decodeType_typeStr (ty : TaskType) : decodeType (typeStr ty) = some ty := by
  cases ty <;> rfl

theorem decodeUnit_unitStr (u : IntervalUnit) :
    decodeUnit (unitStr u) = some u := by
  cases u <;> rfl

theorem decodeTask_encodeTask (t : Task) : decodeTask (encodeTask t) = some t := by
  have hid : getField (taskFields t) "id" = some (.num t.id) := by
    simp [taskFields, getField_append, getField_cons, getField_optField_self,
      getField_optField_ne]
  have htitle : getField (taskFields t) "title" = some (.str t.title) := by
    simp [taskFields, getField_append, getField_cons, getField_optField_self,
      getField_optField_ne]
  have htype : getField (taskFields t) "type" = some (.str (typeStr t.type)) := by
    simp [taskFields, getField_append, getField_cons, getField_optField_self,
      getField_optField_ne]
  have hcomp : getField (taskFields t) "completed"
      = some (.bool t.completed) := by
    simp [taskFields, getField_append, getField_cons, getField_optField_self,
      getField_optField_ne]
  have hsubs : getField (taskFields t) "subtasks"
      = some (.arr (t.subtasks.map encodeSubtask)) := by
    simp [taskFields, getField_append, getField_cons, getField_optField_self,
      getField_optField_ne]
  have hdesc : getField (taskFields t) "description"
      = t.description.map .str := by
    simp [taskFields, getField_append, getField_cons, getField_optField_self,
      getField_optField_ne]
  have hdue : getField (taskFields t) "dueDate" = t.dueDate.map .num := by
    simp [taskFields, getField_append, getField_cons, getField_optField_self,
      getField_optField_ne]
  have himg : getField (taskFields t) "imageUrl" = t.imageUrl.map .str := by
    simp [taskFields, getField_append, getField_cons, getField_optField_self,
      getField_optField_ne]
  have hcat : getField (taskFields t) "completedAt" = t.completedAt.map .num := by
    simp [taskFields, getField_append, getField_cons, getField_optField_self,
      getField_optField_ne]
  have hrec : getField (taskFields t) "isRecurring" = t.isRecurring.map .bool := by
    simp [taskFields, getField_append, getField_cons, getField_optField_self,
      getField_optField_ne]
  have hint : getField (taskFields t) "recurringInterval"
      = t.recurringInterval.map .num := by
    simp [taskFields, getField_append, getField_cons, getField_optField_self,
      getField_optField_ne]
  have hunit : getField (taskFields t) "recurringIntervalUnit"
      = t.recurringIntervalUnit.map (fun u => .str (unitStr u)) := by
    simp [taskFields, getField_append, getField_cons, getField_optField_self,
      getField_optField_ne]
  have hreps : getField (taskFields t) "repetitions" = t.repetitions.map .num := by
    simp [taskFields, getField_append, getField_cons, getField_optField_self,
      getField_optField_ne]
  show decodeTask (.obj (taskFields t)) = some t
  simp only [decodeTask, hid, htitle, htype, hcomp, hsubs, hdesc, hdue, himg,
    hcat, hrec, hint, hunit, hreps]
  simp [decodeType_typeStr, decodeSubtasksList_encode,
    decodeOpt_faithful readStr JValue.str (fun a => rfl),
    decodeOpt_faithful readNum JValue.num (fun a => rfl),
    decodeOpt_faithful readBool JValue.bool (fun a => rfl),
    decodeOpt_faithful (fun v => match v with | .str s => decodeUnit s | _ => none)
      (fun u => .str (unitStr u)) (fun a => decodeUnit_unitStr a)]

/-- Claim C9: serializing any collection to the JSON persistence format
and deserializing the result reproduces the collection field-for-field. -/
theorem serialization_round_trip (ts : List Task) :
    decodeTasks (encodeTasks ts) = some ts := by
  show decodeTaskList (ts.map encodeTask) = some ts
  induction ts with
  | nil => rfl
  | cons t rest ih => simp [decodeTaskList, decodeTask_encodeTask, ih]

end TaskFlow
